import Mathlib

/-!
Verification development for the curve-editing core of
`src/components/image-editor/CurveTool.tsx` (SheetFlow).

The component's React state is shallow-embedded as the record `MState`;
each event handler (`handleMouseDown`, `handleMouseMove`, `handleMouseUp`,
`handleKeyDown`) becomes a pure state-transition function transcribed from
the source.  Coordinates are modelled as rationals (`ℚ`): every arithmetic
operation performed by the code (addition, subtraction, multiplication,
division by 6) is exact on the inputs the claims quantify over, so `ℚ`
carries the same algebra as the source's floating-point numbers without
rounding noise.

Handlers that can throw a JavaScript `TypeError` (dereferencing
`curves[selectedCurveIndex]` when the index is out of range) return
`Option MState`, with `none` marking the thrown exception.  The canvas
drawing context is a write-only collaborator: the renderer is modelled by
the pure path-command list it would emit (`splineCmds`, `rubberBand`);
clearing/stroking pixels has no feedback into component state and is not
modelled.  The external notifications `setActiveTool(null)` and
`onFinishCurve(curve)` are likewise outbound-only and do not affect state.
-/

namespace CurveTool

/-- A point in canvas-local pixel coordinates (`interface Point`). -/
structure Point where
  x : ℚ
  y : ℚ
deriving DecidableEq, Repr

/-- The component state: the six `useState` hooks of `CurveTool`.
`curves` is the committed-curve store, `currentCurve` the active (in
progress) curve, `selectedCurveIndex` the selection, `dragging` the index
of the point being dragged inside the selected curve, `mousePos` the last
tracked pointer position, `drawing` the mode flag (true = Drawing). -/
structure MState where
  curves : List (List Point)
  currentCurve : List Point
  selectedCurveIndex : Option Nat
  dragging : Option Nat
  mousePos : Option Point
  drawing : Bool
deriving DecidableEq, Repr

/-- `isNear(pt1, pt2, distance)`: squared-distance comparison against the
squared threshold, exactly as in the source (no square root). -/
def isNear (pt1 pt2 : Point) (distance : ℚ) : Bool :=
  decide ((pt1.x - pt2.x) * (pt1.x - pt2.x)
    + (pt1.y - pt2.y) * (pt1.y - pt2.y) ≤ distance * distance)

/-- JavaScript `Array.prototype.findIndex`, with `none` for the sentinel
`-1`: index of the first element satisfying `p`. -/
def findIndex (p : α → Bool) : List α → Option Nat
  | [] => none
  | x :: xs => if p x then some 0 else (findIndex p xs).map (· + 1)

/-- The curve-level hit test inside `handleMouseDown`:
`curves.findIndex((curve) => curve.some((pt) => isNear(pt, pos, 8)))`. -/
def curveHit (curves : List (List Point)) (pos : Point) : Option Nat :=
  findIndex (fun curve => curve.any (fun pt => isNear pt pos 8)) curves

/-- The tail of `handleMouseDown` after the drag check falls through:
curve-level hit test, else start a new active curve. -/
def mouseDownHitOrStart (s : MState) (pos : Point) : MState :=
  match curveHit s.curves pos with
  | some hitIndex => { s with selectedCurveIndex := some hitIndex }
  | none => { s with currentCurve := [pos], drawing := true }

/-- `handleMouseDown`.  While drawing, append the point to the active
curve.  Otherwise, with a selection present the source reads
`curves[selectedCurveIndex].length` without a range check: an
out-of-range index dereferences `undefined` and throws a `TypeError`,
modelled as `none`.  With a valid selection it scans the selected curve's
points (threshold 10, the `isNear` default) for a drag target; on a miss
it falls through to the curve-level hit test (threshold 8), and if that
misses too it starts a new active curve. -/
def handleMouseDown (s : MState) (pos : Point) : Option MState :=
  if s.drawing then
    some { s with currentCurve := s.currentCurve ++ [pos] }
  else
    match s.selectedCurveIndex with
    | some c =>
      match s.curves.get? c with
      | none => none
      | some curve =>
        match findIndex (fun pt => isNear pos pt 10) curve with
        | some i => some { s with dragging := some i }
        | none => some (mouseDownHitOrStart s pos)
    | none => some (mouseDownHitOrStart s pos)

/-- `handleMouseMove`: always records the pointer position; when both a
drag index and a selection are present it replaces the dragged point.  The
source spreads `prev[selectedCurveIndex]`: an out-of-range selection
spreads `undefined` and throws (`none`).  Writing past the end of the
selected curve (`updatedCurve[dragging] = pos` with `dragging ≥ length`)
creates a sparse JavaScript array with holes — a value outside the
point-sequence data model, also marked `none`. -/
def handleMouseMove (s : MState) (pos : Point) : Option MState :=
  match s.dragging, s.selectedCurveIndex with
  | some k, some c =>
    match s.curves.get? c with
    | none => none
    | some curve =>
      if k < curve.length then
        some { s with mousePos := some pos,
                      curves := s.curves.set c (curve.set k pos) }
      else none
  | _, _ => some { s with mousePos := some pos }

/-- `handleMouseUp`: `setDragging(null); setMousePos(null)`. -/
def handleMouseUp (s : MState) : MState :=
  { s with dragging := none, mousePos := none }

/-- `handleKeyDown`: on Enter while drawing with more than one accumulated
point, append the active curve to the store, empty the active curve, clear
the pointer position, leave Drawing mode and clear the selection.  (The
source also calls `setActiveTool(null)` and `onFinishCurve(currentCurve)`,
outbound notifications with no effect on this state; note that
`setDragging` is never called here.)  Any other key, or a degenerate
active curve, leaves the state untouched. -/
def handleKeyDown (s : MState) (key : String) : MState :=
  if key = "Enter" ∧ s.drawing = true ∧ 1 < s.currentCurve.length then
    { s with curves := s.curves ++ [s.currentCurve],
             currentCurve := [],
             mousePos := none,
             drawing := false,
             selectedCurveIndex := none }
  else s

/-- A path-building command issued to the 2D context while stroking one
curve: `moveTo` or `bezierCurveTo` (two control points, then the segment
end point). -/
inductive PathCmd where
  | moveTo : Point → PathCmd
  | bezierTo : Point → Point → Point → PathCmd
deriving DecidableEq, Repr

/-- The per-curve spline evaluation of the main `draw` function
(`CurveTool.tsx` lines 48–65): curves with fewer than 2 points emit no
path; otherwise `moveTo(curve[0])` followed by one cubic Bézier per index
`i` in `[0, length-2]`.  `curve[i - 1] || curve[i]` is modelled by the
`i = 0` test (a `Point` object is always truthy, and for `i ≥ 1` the index
`i - 1` is in range, so the fallback fires exactly at `i = 0`);
`curve[i + 2] || p2` is `getD (i+2) p2`.  The `getD … ⟨0, 0⟩` defaults on
`curve[i]`, `curve[i+1]` are never reached: `i + 1 ≤ length - 1`. -/
def splineCmds (curve : List Point) : List PathCmd :=
  if curve.length < 2 then []
  else
    PathCmd.moveTo (curve.getD 0 ⟨0, 0⟩) ::
    (List.range (curve.length - 1)).map (fun i =>
      let p1 := curve.getD i ⟨0, 0⟩
      let p2 := curve.getD (i + 1) ⟨0, 0⟩
      let p0 := if i = 0 then p1 else curve.getD (i - 1) ⟨0, 0⟩
      let p3 := curve.getD (i + 2) p2
      PathCmd.bezierTo
        ⟨p1.x + (p2.x - p0.x) / 6, p1.y + (p2.y - p0.y) / 6⟩
        ⟨p2.x - (p3.x - p1.x) / 6, p2.y - (p3.y - p1.y) / 6⟩
        p2)

/-- The duplicated per-curve spline evaluation inside `handleKeyDown`'s
finalize redraw (`CurveTool.tsx` lines 210–230), transcribed from that
block independently of `splineCmds`. -/
def splineCmdsFinalize (curve : List Point) : List PathCmd :=
  if curve.length < 2 then []
  else
    PathCmd.moveTo (curve.getD 0 ⟨0, 0⟩) ::
    (List.range (curve.length - 1)).map (fun i =>
      let p1 := curve.getD i ⟨0, 0⟩
      let p2 := curve.getD (i + 1) ⟨0, 0⟩
      let p0 := if i = 0 then p1 else curve.getD (i - 1) ⟨0, 0⟩
      let p3 := curve.getD (i + 2) p2
      PathCmd.bezierTo
        ⟨p1.x + (p2.x - p0.x) / 6, p1.y + (p2.y - p0.y) / 6⟩
        ⟨p2.x - (p3.x - p1.x) / 6, p2.y - (p3.y - p1.y) / 6⟩
        p2)

/-- The rubber-band guide segment the renderer draws (`draw`, lines
100–110): only while drawing, with a non-empty active curve and a known
pointer position, from the last placed point to the pointer. -/
def rubberBand (s : MState) : Option (Point × Point) :=
  match s.drawing, s.currentCurve.getLast?, s.mousePos with
  | true, some lastPoint, some m => some (lastPoint, m)
  | _, _, _ => none

/-- A raw input event as delivered by the canvas / window listeners. -/
inductive Event where
  | mouseDown : Point → Event
  | mouseMove : Point → Event
  | mouseUp : Event
  | keyDown : String → Event
deriving DecidableEq, Repr

/-- One step of the event loop.  The subscription effect runs
`if (!drawing) return;` before attaching any listener, so when `drawing`
is false no handler is registered and every event leaves the state
untouched; while `drawing` is true the four handlers are attached. -/
def processEvent (s : MState) (e : Event) : Option MState :=
  if s.drawing = true then
    match e with
    | .mouseDown pos => handleMouseDown s pos
    | .mouseMove pos => handleMouseMove s pos
    | .mouseUp => some (handleMouseUp s)
    | .keyDown k => some (handleKeyDown s k)
  else some s

/-- Processing a sequence of events in arrival order, stopping at a thrown
exception. -/
def processEvents (s : MState) : List Event → Option MState
  | [] => some s
  | e :: es =>
    match processEvent s e with
    | some s1 => processEvents s1 es
    | none => none

/-- `findIndex` returns `none` exactly when no element satisfies the
predicate. -/
theorem findIndex_eq_none_iff {α : Type _} (p : α → Bool) (l : List α) :
    findIndex p l = none ↔ ∀ x ∈ l, p x = false := by
  induction l with
  | nil => simp [findIndex]
  | cons x xs ih =>
    by_cases h : p x = true
    · simp [findIndex, h]
    · simp only [Bool.not_eq_true] at h
      simp [findIndex, h, ih]

/-- `findIndex` returns `some i` exactly when the `i`-th element satisfies
the predicate and no earlier element does. -/
theorem findIndex_eq_some_iff {α : Type _} (p : α → Bool) (l : List α)
    (i : Nat) :
    findIndex p l = some i ↔
      (∃ x, l.get? i = some x ∧ p x = true) ∧
      ∀ j, j < i → ∀ y, l.get? j = some y → p y = false := by
  induction l generalizing i with
  | nil => simp [findIndex]
  | cons x xs ih =>
    by_cases h : p x = true
    · simp only [findIndex, if_pos h]
      cases i with
      | zero =>
        simp only [Option.some.injEq, List.get?_cons_zero]
        constructor
        · intro _
          exact ⟨⟨x, rfl, h⟩, fun j hj => absurd hj (Nat.not_lt_zero j)⟩
        · intro _
          trivial
      | succ k =>
        constructor
        · intro hc
          exact absurd hc (by simp)
        · rintro ⟨-, hall⟩
          exact absurd (hall 0 (Nat.succ_pos k) x rfl) (by simp [h])
    · simp only [Bool.not_eq_true] at h
      simp only [findIndex, h, Bool.false_eq_true, if_false]
      cases i with
      | zero =>
        simp [Option.map_eq_some', h]
      | succ k =>
        have hmap : (findIndex p xs).map (· + 1) = some (k + 1) ↔
            findIndex p xs = some k := by
          cases hfx : findIndex p xs <;> simp [hfx]
        rw [hmap, ih k]
        constructor
        · rintro ⟨hex, hall⟩
          refine ⟨by simpa using hex, ?_⟩
          intro j hj y hy
          cases j with
          | zero =>
            rw [List.get?_cons_zero, Option.some.injEq] at hy
            rw [← hy]
            exact h
          | succ j' =>
            rw [List.get?_cons_succ] at hy
            exact hall j' (by omega) y hy
        · rintro ⟨hex, hall⟩
          refine ⟨by simpa using hex, ?_⟩
          intro j hj y hy
          exact hall (j + 1) (by omega) y (by simpa using hy)

/-- C3: the curve-level hit test.  `isNear pt pos 8` holds exactly when
the squared distance from `pt` to the pointer is at most `8² = 64`; the
hit test returns `none` exactly when no committed curve has a point that
near, and `some i` exactly when curve `i` has such a point and no
earlier curve (in store order) does; in particular, when exactly one
curve has a point within the threshold, its index is returned. -/
theorem curve_hit_spec (curves : List (List Point)) (pos : Point) :
    (∀ pt : Point, isNear pt pos 8 = true ↔
        (pt.x - pos.x) * (pt.x - pos.x) + (pt.y - pos.y) * (pt.y - pos.y)
          ≤ 64) ∧
    (curveHit curves pos = none ↔
        ∀ c ∈ curves, ¬ ∃ pt ∈ c, isNear pt pos 8 = true) ∧
    (∀ i, curveHit curves pos = some i ↔
        (∃ c, curves.get? i = some c ∧ ∃ pt ∈ c, isNear pt pos 8 = true) ∧
        ∀ j, j < i → ∀ c, curves.get? j = some c →
          ¬ ∃ pt ∈ c, isNear pt pos 8 = true) ∧
    (∀ i (hi : i < curves.length),
        (∃ pt ∈ curves.get ⟨i, hi⟩, isNear pt pos 8 = true) →
        (∀ j (hj : j < curves.length), j ≠ i →
          ¬ ∃ pt ∈ curves.get ⟨j, hj⟩, isNear pt pos 8 = true) →
        curveHit curves pos = some i) := by
  have hnear : ∀ pt : Point, isNear pt pos 8 = true ↔
      (pt.x - pos.x) * (pt.x - pos.x) + (pt.y - pos.y) * (pt.y - pos.y)
        ≤ 64 := by
    intro pt
    rw [isNear, decide_eq_true_iff]
    norm_num
  have hsome : ∀ i, curveHit curves pos = some i ↔
      (∃ c, curves.get? i = some c ∧ ∃ pt ∈ c, isNear pt pos 8 = true) ∧
      ∀ j, j < i → ∀ c, curves.get? j = some c →
        ¬ ∃ pt ∈ c, isNear pt pos 8 = true := by
    intro i
    rw [curveHit, findIndex_eq_some_iff]
    constructor
    · rintro ⟨⟨c, hc, hp⟩, hall⟩
      refine ⟨⟨c, hc, by simpa using hp⟩, ?_⟩
      intro j hj c' hc' hex
      have := hall j hj c' hc'
      simp only [List.any_eq_false] at this
      obtain ⟨pt, hpt, hptn⟩ := hex
      exact this pt hpt hptn
    · rintro ⟨⟨c, hc, hp⟩, hall⟩
      refine ⟨⟨c, hc, by simpa using hp⟩, ?_⟩
      intro j hj c' hc'
      simp only [List.any_eq_false]
      intro pt hpt hptn
      exact hall j hj c' hc' ⟨pt, hpt, hptn⟩
  refine ⟨hnear, ?_, hsome, ?_⟩
  · rw [curveHit, findIndex_eq_none_iff]
    constructor
    · intro hall c hc hex
      have := hall c hc
      simp only [List.any_eq_false] at this
      obtain ⟨pt, hpt, hptn⟩ := hex
      exact this pt hpt hptn
    · intro hall c hc
      simp only [List.any_eq_false]
      intro pt hpt hptn
      exact hall c hc ⟨pt, hpt, hptn⟩
  · intro i hi hex hothers
    refine (hsome i).mpr ⟨⟨curves.get ⟨i, hi⟩, List.get?_eq_get hi, hex⟩, ?_⟩
    intro j hj c hc
    have hj' : j < curves.length := by omega
    rw [List.get?_eq_get hj', Option.some.injEq] at hc
    rw [← hc]
    exact hothers j hj' (by omega)

theorem curve_hit_spec_witness :
    (∃ pt ∈ (([[⟨0, 0⟩, ⟨10, 0⟩, ⟨20, 0⟩]] :
        List (List Point)).get ⟨0, by decide⟩),
      isNear pt ⟨10, 0⟩ 8 = true) ∧
    curveHit [[⟨0, 0⟩, ⟨10, 0⟩, ⟨20, 0⟩]] ⟨10, 0⟩ = some 0 :=
  ⟨⟨⟨10, 0⟩, by simp, by rw [isNear, decide_eq_true_iff]; norm_num⟩,
    (curve_hit_spec [[⟨0, 0⟩, ⟨10, 0⟩, ⟨20, 0⟩]] ⟨10, 0⟩).2.2.2 0 (by decide)
      ⟨⟨10, 0⟩, by simp, by rw [isNear, decide_eq_true_iff]; norm_num⟩
      (fun j hj hne => absurd (Nat.lt_one_iff.mp (by simpa using hj)) hne)⟩

/-- C4: with a valid selection `c` and drag index `k`, a pointer-move to
`pos` replaces exactly the point `curves[c][k]` by `pos`: every other
curve, every other point of curve `c`, the curve count, the active curve,
the selection and the drag index are unchanged. -/
theorem drag_move_spec (s : MState) (pos : Point) (c k : Nat)
    (hsel : s.selectedCurveIndex = some c) (hdrag : s.dragging = some k)
    (oldCurve : List Point) (hoc : s.curves.get? c = some oldCurve)
    (hk : k < oldCurve.length) :
    ∃ s', handleMouseMove s pos = some s' ∧
      s'.curves.length = s.curves.length ∧
      (∀ j, j ≠ c → s'.curves.get? j = s.curves.get? j) ∧
      s'.curves.get? c = some (oldCurve.set k pos) ∧
      (oldCurve.set k pos).get? k = some pos ∧
      (∀ i, i ≠ k → (oldCurve.set k pos).get? i = oldCurve.get? i) ∧
      (oldCurve.set k pos).length = oldCurve.length ∧
      s'.currentCurve = s.currentCurve ∧
      s'.selectedCurveIndex = s.selectedCurveIndex ∧
      s'.dragging = s.dragging := by
  have hc : c < s.curves.length := by
    rcases List.get?_eq_some.mp hoc with ⟨h, -⟩
    exact h
  refine ⟨{ s with mousePos := some pos, curves := s.curves.set c (oldCurve.set k pos) }, ?_, ?_, ?_, ?_, ?_, ?_, ?_, rfl, rfl, rfl⟩
  · have hoc' : s.curves[c]? = some oldCurve := by
      rw [← List.get?_eq_getElem?]
      exact hoc
    simp [handleMouseMove, hdrag, hsel, hoc', hk]
  · simp
  · intro j hj
    exact List.get?_set_ne _ s.curves (fun h => hj h.symm)
  · rw [List.get?_set_eq_of_lt _ hc]
  · exact List.get?_set_eq_of_lt _ hk
  · intro i hi
    exact List.get?_set_ne _ oldCurve (fun h => hi h.symm)
  · simp

theorem drag_move_spec_witness :
    ∃ s', handleMouseMove
        ⟨[[⟨0, 0⟩, ⟨10, 0⟩, ⟨20, 0⟩]], [], some 0, some 1, none, false⟩
        ⟨10, 40⟩ = some s' ∧
      s'.curves.length = 1 ∧
      (∀ j, j ≠ 0 → s'.curves.get? j =
        ([[⟨0, 0⟩, ⟨10, 0⟩, ⟨20, 0⟩]] : List (List Point)).get? j) ∧
      s'.curves.get? 0 =
        some (([⟨0, 0⟩, ⟨10, 0⟩, ⟨20, 0⟩] : List Point).set 1 ⟨10, 40⟩) ∧
      (([⟨0, 0⟩, ⟨10, 0⟩, ⟨20, 0⟩] : List Point).set 1 ⟨10, 40⟩).get? 1 =
        some ⟨10, 40⟩ ∧
      (∀ i, i ≠ 1 →
        (([⟨0, 0⟩, ⟨10, 0⟩, ⟨20, 0⟩] : List Point).set 1 ⟨10, 40⟩).get? i =
          ([⟨0, 0⟩, ⟨10, 0⟩, ⟨20, 0⟩] : List Point).get? i) ∧
      (([⟨0, 0⟩, ⟨10, 0⟩, ⟨20, 0⟩] : List Point).set 1 ⟨10, 40⟩).length = 3 ∧
      s'.currentCurve = [] ∧
      s'.selectedCurveIndex = some 0 ∧
      s'.dragging = some 1 :=
  drag_move_spec
    ⟨[[⟨0, 0⟩, ⟨10, 0⟩, ⟨20, 0⟩]], [], some 0, some 1, none, false⟩
    ⟨10, 40⟩ 0 1 rfl rfl [⟨0, 0⟩, ⟨10, 0⟩, ⟨20, 0⟩] rfl (by decide)

/-- C6 (evaluation at the failing input): with a stale selection index —
`selectedCurveIndex = 0` over an empty committed store — both the
pointer-down handler (`curves[selectedCurveIndex].length`) and the
pointer-move handler with a drag in progress (`[...prev[selectedCurveIndex]]`)
dereference `undefined` and throw a `TypeError` (modelled `none`) instead
of treating the stale index as "not found". -/
theorem invalid_selection_crash :
    handleMouseDown ⟨[], [], some 0, none, none, false⟩ ⟨0, 0⟩ = none ∧
    handleMouseMove ⟨[], [], some 0, some 0, none, false⟩ ⟨0, 0⟩ = none :=
  ⟨rfl, rfl⟩

/-- C2: the evaluated spline path of a curve with `n ≥ 2` points has
exactly `n` commands — the start `moveTo P[0]` plus one cubic Bézier
segment per consecutive pair `(P[i], P[i+1])`, `i ∈ [0, n-2]` — and
segment `i` ends at `P[i+1]` with control points
`cp1 = p1 + (p2 - p0)/6` and `cp2 = p2 - (p3 - p1)/6`, where
`p0 = P[i-1]` clamped to `P[i]` at `i = 0` (truncated subtraction
`i - 1` realises the clamp: at `i = 0` it gives index `0 = i`) and
`p3 = P[i+2]` clamped to `P[i+1]` when `i+2` is out of range
(`min (i+2) (n-1)` realises the clamp: it is `i+2` when in range and
`n-1 = i+1` otherwise, since `i+2 ≤ n`). -/
theorem spline_eval_spec (curve : List Point) (h : 2 ≤ curve.length) :
    (splineCmds curve).length = curve.length ∧
    (splineCmds curve).get? 0 =
      some (PathCmd.moveTo (curve.get ⟨0, by omega⟩)) ∧
    ∀ i (hi : i + 1 < curve.length),
      (splineCmds curve).get? (i + 1) =
        some (
          let p1 := curve.get ⟨i, by omega⟩
          let p2 := curve.get ⟨i + 1, hi⟩
          let p0 := curve.get ⟨i - 1, by omega⟩
          let p3 := curve.get ⟨min (i + 2) (curve.length - 1), by omega⟩
          PathCmd.bezierTo
            ⟨p1.x + (p2.x - p0.x) / 6, p1.y + (p2.y - p0.y) / 6⟩
            ⟨p2.x - (p3.x - p1.x) / 6, p2.y - (p3.y - p1.y) / 6⟩
            p2) := by
  have h2 : ¬ curve.length < 2 := by omega
  have hgetD : ∀ (j : Nat) (hj : j < curve.length) (d : Point),
      curve.getD j d = curve.get ⟨j, hj⟩ := by
    intro j hj d
    rw [List.getD_eq_get?, List.get?_eq_get hj]
    rfl
  have hgetc : ∀ (a b : Nat) (ha : a < curve.length) (hb : b < curve.length),
      a = b → curve.get ⟨a, ha⟩ = curve.get ⟨b, hb⟩ := by
    intro a b ha hb hab
    subst hab
    rfl
  refine ⟨?_, ?_, ?_⟩
  · simp only [splineCmds, if_neg h2, List.length_cons, List.length_map,
      List.length_range]
    omega
  · simp only [splineCmds, if_neg h2, List.get?_cons_zero,
      hgetD 0 (by omega)]
  · intro i hi
    have hi' : i < curve.length - 1 := by omega
    have e1 : curve.getD i ⟨0, 0⟩ = curve.get ⟨i, by omega⟩ :=
      hgetD i (by omega) _
    have e2 : curve.getD (i + 1) ⟨0, 0⟩ = curve.get ⟨i + 1, hi⟩ :=
      hgetD (i + 1) hi _
    have e0 : (if i = 0 then curve.getD i ⟨0, 0⟩
          else curve.getD (i - 1) ⟨0, 0⟩) =
        curve.get ⟨i - 1, by omega⟩ := by
      by_cases hz : i = 0
      · subst hz
        rw [if_pos rfl, hgetD 0 (by omega)]
      · rw [if_neg hz, hgetD (i - 1) (by omega)]
    have e3 : curve.getD (i + 2) (curve.getD (i + 1) ⟨0, 0⟩) =
        curve.get ⟨min (i + 2) (curve.length - 1), by omega⟩ := by
      by_cases h3 : i + 2 < curve.length
      · rw [hgetD (i + 2) h3]
        exact hgetc _ _ _ _ (by omega)
      · have hrange : curve.length ≤ i + 2 := by omega
        rw [List.getD_eq_get?, List.get?_len_le hrange, Option.getD_none,
          hgetD (i + 1) hi]
        exact hgetc _ _ _ _ (by omega)
    simp only [splineCmds, if_neg h2, List.get?_cons_succ, List.get?_map,
      List.get?_range hi', Option.map_some']
    simp only [e0, e3]
    simp only [e1, e2]

theorem spline_eval_spec_witness :
    2 ≤ ([⟨0, 0⟩, ⟨6, 0⟩, ⟨12, 6⟩] : List Point).length ∧
    (splineCmds [⟨0, 0⟩, ⟨6, 0⟩, ⟨12, 6⟩]).length = 3 :=
  ⟨by decide, (spline_eval_spec [⟨0, 0⟩, ⟨6, 0⟩, ⟨12, 6⟩] (by decide)).1⟩

/-- C9: the spline-evaluation block of the main `draw` function and the
duplicated block inside `handleKeyDown`'s finalize redraw compute
identical path commands — the same `moveTo` start and, per segment, the
same cubic Bézier control points and end points — for every point
sequence. -/
theorem spline_preview_finalize_equal (curve : List Point) :
    splineCmds curve = splineCmdsFinalize curve := rfl

/-- C1: committing (Enter, while drawing, with at least 2 accumulated
points) appends exactly the active curve to the committed store — the
store grows by one, the new last curve is the pre-commit active curve in
order — and empties the active curve, leaves Drawing mode, and clears the
selection. -/
theorem commit_success_spec (s : MState) (hd : s.drawing = true)
    (hn : 1 < s.currentCurve.length) :
    (handleKeyDown s "Enter").curves = s.curves ++ [s.currentCurve] ∧
    (handleKeyDown s "Enter").curves.length = s.curves.length + 1 ∧
    (handleKeyDown s "Enter").curves.getLast? = some s.currentCurve ∧
    (handleKeyDown s "Enter").currentCurve = [] ∧
    (handleKeyDown s "Enter").drawing = false ∧
    (handleKeyDown s "Enter").selectedCurveIndex = none := by
  simp [handleKeyDown, hd, hn]

theorem commit_success_spec_witness :
    (handleKeyDown ⟨[], [⟨10, 10⟩, ⟨50, 10⟩], none, none, none, true⟩
        "Enter").curves = [[⟨10, 10⟩, ⟨50, 10⟩]] ∧
    (handleKeyDown ⟨[], [⟨10, 10⟩, ⟨50, 10⟩], none, none, none, true⟩
        "Enter").drawing = false ∧
    (handleKeyDown ⟨[], [⟨10, 10⟩, ⟨50, 10⟩], none, none, none, true⟩
        "Enter").selectedCurveIndex = none := by
  have h := commit_success_spec
    ⟨[], [⟨10, 10⟩, ⟨50, 10⟩], none, none, none, true⟩ rfl (by decide)
  exact ⟨h.1, h.2.2.2.2.1, h.2.2.2.2.2⟩

/-- C5: pressing the commit key while drawing with an active curve of 0
or 1 points changes nothing — the store, the active curve and the mode
are untouched and Drawing mode is not exited. -/
theorem commit_refusal_spec (s : MState) (hd : s.drawing = true)
    (hn : s.currentCurve.length ≤ 1) :
    handleKeyDown s "Enter" = s ∧ (handleKeyDown s "Enter").drawing = true := by
  have h : handleKeyDown s "Enter" = s := by
    unfold handleKeyDown
    rw [if_neg]
    rintro ⟨-, -, hlen⟩
    omega
  exact ⟨h, by rw [h]; exact hd⟩

theorem commit_refusal_spec_witness :
    handleKeyDown ⟨[], [⟨10, 10⟩], none, none, none, true⟩ "Enter" =
      ⟨[], [⟨10, 10⟩], none, none, none, true⟩ :=
  (commit_refusal_spec ⟨[], [⟨10, 10⟩], none, none, none, true⟩ rfl
    (by decide)).1

/-- C7 counterexample: a successful commit clears the selection index but
does not clear the drag index — in the state with active curve
`[(0,0),(1,0)]`, drag index 0 and drawing on, Enter yields selection
`none` but drag index still `some 0`, refuting "every transition that
clears the selection index also clears the drag index". -/
theorem commit_keeps_drag_cex :
    (handleKeyDown ⟨[], [⟨0, 0⟩, ⟨1, 0⟩], some 0, some 0, none, true⟩
        "Enter").selectedCurveIndex = none ∧
    (handleKeyDown ⟨[], [⟨0, 0⟩, ⟨1, 0⟩], some 0, some 0, none, true⟩
        "Enter").dragging = some 0 := by
  constructor <;> rfl

/-- C7 amended: a successful commit clears the selection index but leaves
the drag index exactly as it was (so it is null after a commit only when
it was already null); the drag index is cleared by pointer-up, which
retains the selection. -/
theorem commit_selection_vs_drag (s : MState) (hd : s.drawing = true)
    (hn : 1 < s.currentCurve.length) :
    (handleKeyDown s "Enter").selectedCurveIndex = none ∧
    (handleKeyDown s "Enter").dragging = s.dragging ∧
    (handleMouseUp s).dragging = none ∧
    (handleMouseUp s).selectedCurveIndex = s.selectedCurveIndex := by
  refine ⟨(commit_success_spec s hd hn).2.2.2.2.2, ?_, rfl, rfl⟩
  simp [handleKeyDown, hd, hn]

theorem commit_selection_vs_drag_witness :
    (handleKeyDown ⟨[], [⟨0, 0⟩, ⟨1, 0⟩], none, some 2, none, true⟩
        "Enter").selectedCurveIndex = none ∧
    (handleKeyDown ⟨[], [⟨0, 0⟩, ⟨1, 0⟩], none, some 2, none, true⟩
        "Enter").dragging = some 2 := by
  have h := commit_selection_vs_drag
    ⟨[], [⟨0, 0⟩, ⟨1, 0⟩], none, some 2, none, true⟩ rfl (by decide)
  exact ⟨h.1, h.2.1⟩

/-- C8 counterexample: pointer-up clears the one tracked pointer position,
and that position is exactly the one the Drawing rubber-band preview
reads — before pointer-up the preview segment runs from (0,0) to (5,5),
after pointer-up the preview position is gone — refuting "leaving the
pointer position used for the Drawing rubber-band preview unchanged". -/
theorem mouseup_clears_preview_cex :
    rubberBand ⟨[], [⟨0, 0⟩], none, some 0, some ⟨5, 5⟩, true⟩ =
      some (⟨0, 0⟩, ⟨5, 5⟩) ∧
    (handleMouseUp ⟨[], [⟨0, 0⟩], none, some 0, some ⟨5, 5⟩, true⟩).mousePos =
      none ∧
    rubberBand
      (handleMouseUp ⟨[], [⟨0, 0⟩], none, some 0, some ⟨5, 5⟩, true⟩) = none := by
  refine ⟨rfl, rfl, rfl⟩

/-- C8 amended: pointer-up clears the drag index (a dragging state returns
to Selected — the selection is retained) and clears the single tracked
pointer position; since that position is the one the Drawing rubber-band
preview reads, the preview is suppressed until the next pointer-move
rather than left unchanged. -/
theorem mouseup_spec (s : MState) :
    (handleMouseUp s).dragging = none ∧
    (handleMouseUp s).selectedCurveIndex = s.selectedCurveIndex ∧
    (handleMouseUp s).mousePos = none ∧
    rubberBand (handleMouseUp s) = none := by
  refine ⟨rfl, rfl, rfl, ?_⟩
  cases hd : s.drawing <;> cases hl : s.currentCurve.getLast? <;>
    simp [rubberBand, handleMouseUp, hl]

/-- C10: the subscription effect attaches the pointer and keyboard
handlers only while the `drawing` flag is true; in any state with
`drawing = false` every single event — and hence every event sequence —
leaves the state exactly unchanged, so selecting a committed curve,
dragging a point and starting a new active curve are all unreachable once
Drawing ends. -/
theorem no_events_when_not_drawing (s : MState) (hd : s.drawing = false) :
    (∀ e, processEvent s e = some s) ∧
    (∀ evs, processEvents s evs = some s) := by
  have h1 : ∀ e, processEvent s e = some s := by
    intro e
    simp [processEvent, hd]
  refine ⟨h1, ?_⟩
  intro evs
  induction evs with
  | nil => rfl
  | cons e es ih => simp [processEvents, h1 e, ih]

theorem no_events_when_not_drawing_witness :
    processEvents ⟨[[⟨0, 0⟩, ⟨9, 9⟩]], [], none, none, none, false⟩
      [Event.mouseDown ⟨0, 0⟩, Event.mouseMove ⟨3, 3⟩, Event.mouseUp,
        Event.keyDown "Enter"] =
      some ⟨[[⟨0, 0⟩, ⟨9, 9⟩]], [], none, none, none, false⟩ :=
  (no_events_when_not_drawing
    ⟨[[⟨0, 0⟩, ⟨9, 9⟩]], [], none, none, none, false⟩ rfl).2 _

end CurveTool
